import Mathlib

/-!
# Verification of the woodworking-simulation core

A shallow embedding, over exact rational arithmetic, of the phase-driven
interaction core of the dovetail-box / stool crafting simulation:

* the geometry layout engine (`computeTailCenters`, the `TAIL_CENTERS`
  constant of `WoodProject`),
* the interaction-to-progress mapper (`handleCut` of `BoxProject`,
  `handleDrill` of `StoolProject`, `handleCut` of `TimberStage`),
* the assembly/hammer sub-state machine (`handleHammerClick`, `handleHammer`),
* the pooled sawdust particle system (`SawdustSystem`),
* the phase state machine (`nextPhase`, `handleCollectAndNext` of `App`)
  and the per-phase reset effects.

JavaScript numbers are modelled by `ℚ`; every numeric literal appearing in the
source is an exactly representable decimal, and the properties proved are the
exact-arithmetic statements of the specification.  `Math.random()` draws are
modelled as oracle inputs, and the few transcendental values the rendering code
stores but never reads back (`Math.sin`/`cos` of a random angle, `Math.atan2`
fall angles, `Math.PI/2`) are likewise modelled as supplied parameters: none of
them feeds back into the control logic verified here.
-/

namespace WoodSim

/-! ## Configuration constants (WoodProject lines 24-38) -/

def NUM_TAILS : ℕ := 4

def BOARD_WIDTH : ℚ := 2

def GAP_HEIGHT : ℚ := 15/100

def HAMMER_TAPS_REQUIRED : ℕ := 3

/-- Source constant `TOTAL_TAIL_RATIO = 0.65` (renamed here). -/
def TOTAL_TAIL_FRAC : ℚ := 65/100

/-- Source constant `TAIL_WIDTH_TIP = (BOARD_WIDTH * TOTAL_TAIL_RATIO) / NUM_TAILS`. -/
def TAIL_WIDTH_TIP : ℚ := BOARD_WIDTH * TOTAL_TAIL_FRAC / (NUM_TAILS : ℚ)

/-! ## Geometry layout engine: tail centers (WoodProject lines 39-51) -/

/-- The pin width computed inside the `TAIL_CENTERS` initialiser:
`remainingWidth / (NUM_TAILS + 1)` with
`remainingWidth = BOARD_WIDTH - TAIL_WIDTH_TIP * NUM_TAILS`. -/
def pinWidthOf (boardWidth tailWidth : ℚ) (tailCount : ℕ) : ℚ :=
  (boardWidth - tailWidth * (tailCount : ℚ)) / ((tailCount : ℚ) + 1)

/-- The `for` loop of the `TAIL_CENTERS` initialiser: starting from
`currentX`, push `n` centers advancing by `pitch` each iteration. -/
def tailCentersLoop (pitch : ℚ) : ℚ → ℕ → List ℚ
  | _, 0 => []
  | currentX, n + 1 => currentX :: tailCentersLoop pitch (currentX + pitch) n

/-- The `TAIL_CENTERS` computation, generalised over the configuration
constants exactly as the spec's `computeTailCenters` contract reads it:
`pitch = tailWidth + pinWidth`,
`currentX₀ = -boardWidth/2 + pinWidth + tailWidth/2`. -/
def computeTailCenters (boardWidth tailWidth : ℚ) (tailCount : ℕ) : List ℚ :=
  let pinWidth := pinWidthOf boardWidth tailWidth tailCount
  let pitch := tailWidth + pinWidth
  tailCentersLoop pitch (-boardWidth / 2 + pinWidth + tailWidth / 2) tailCount

/-- The shipped `TAIL_CENTERS` constant. -/
def TAIL_CENTERS : List ℚ := computeTailCenters BOARD_WIDTH TAIL_WIDTH_TIP NUM_TAILS

/-! ## Interaction-to-progress mapper (`handleCut` of BoxProject lines 665-708,
`handleDrill` of StoolProject lines 432-459)

A cutting/drilling phase keeps a fixed-size boolean completion array
(`wastesCut…` / `holesDrilled`), modelled as `Fin n → Bool`.  One handler call
receives a tool position, marks every not-yet-completed target whose hit test
succeeds, spawns a particle burst per newly marked target, and — when the call
changed something and every flag is now set — fires `onPhaseComplete`. -/

/-- The new completion array after one handler call:
`if (!newWastes[index] && hit) newWastes[index] = true`. -/
def markStep (n : ℕ) (hit flags : Fin n → Bool) : Fin n → Bool :=
  fun i => flags i || hit i

/-- The handler's `changed` flag: some target was newly marked this call. -/
def stepChanged (n : ℕ) (hit flags : Fin n → Bool) : Bool :=
  decide (∃ i, flags i = false ∧ hit i = true)

/-- The completion test `newWastes.every(w => w)` / `newHoles.every(h => h)`. -/
def allComplete (n : ℕ) (flags : Fin n → Bool) : Bool :=
  decide (∀ i, flags i = true)

/-- Whether this call invokes `onPhaseComplete`: only inside `if (changed)`,
and only when every flag of the updated array is set. -/
def stepEmitsComplete (n : ℕ) (hit flags : Fin n → Bool) : Bool :=
  stepChanged n hit flags && allComplete n (markStep n hit flags)

/-- The indices for which this call spawns a sawdust burst
(`spawnBurst` is called exactly for each newly marked target). -/
def stepBursts (n : ℕ) (hit flags : Fin n → Bool) : List (Fin n) :=
  (List.finRange n).filter (fun i => !flags i && hit i)

/-- Completion state after a sequence of handler calls within one phase. -/
def runFlags (n : ℕ) {α : Type} (hit : α → Fin n → Bool) :
    (Fin n → Bool) → List α → Fin n → Bool
  | flags, [] => flags
  | flags, x :: xs => runFlags n hit (markStep n (hit x) flags) xs

/-- Number of `onPhaseComplete` invocations over a sequence of handler calls. -/
def countCompletions (n : ℕ) {α : Type} (hit : α → Fin n → Bool) :
    (Fin n → Bool) → List α → ℕ
  | _, [] => 0
  | flags, x :: xs =>
      (if stepEmitsComplete n (hit x) flags then 1 else 0)
        + countCompletions n hit (markStep n (hit x) flags) xs

/-! ### Box instantiation (`handleCut`, threshold `TAIL_WIDTH_TIP / 1.5`) -/

/-- Source constant `threshold = TAIL_WIDTH_TIP / 1.5` of `handleCut`. -/
def CUT_THRESHOLD : ℚ := TAIL_WIDTH_TIP / (3/2)

/-- The `i`-th entry of `TAIL_CENTERS` (the array has `NUM_TAILS` entries). -/
def tailCenter (i : Fin NUM_TAILS) : ℚ := TAIL_CENTERS.getD (i : ℕ) 0

/-- Hit test of `handleCut`: `Math.abs(xPos - center) < threshold`. -/
def boxHit (xPos : ℚ) : Fin NUM_TAILS → Bool :=
  fun i => decide (|xPos - tailCenter i| < CUT_THRESHOLD)

/-! ### Stool instantiation (`handleDrill`, radius `0.25`) -/

/-- Source constant `LEG_POSITIONS` of the stool project. -/
def LEG_POSITIONS : List (ℚ × ℚ) :=
  [(6/10, 6/10), (-(6/10), 6/10), (6/10, -(6/10)), (-(6/10), -(6/10))]

def DRILL_HIT_RADIUS : ℚ := 25/100

def legPosition (i : Fin 4) : ℚ × ℚ := LEG_POSITIONS.getD (i : ℕ) (0, 0)

/-- Hit test of `handleDrill`: the source computes
`dist = Math.sqrt((toolX-targetWorldX)² + (toolZ-targetWorldZ)²)` with
`targetWorldX = leg.x`, `targetWorldZ = -leg.z`, and tests `dist < 0.25`;
both sides being nonnegative this equals the square comparison used here. -/
def stoolHit (toolX toolZ : ℚ) : Fin 4 → Bool :=
  fun i =>
    decide ((toolX - (legPosition i).1)^2 + (toolZ - (-(legPosition i).2))^2
      < DRILL_HIT_RADIUS^2)

/-- A concrete completion state with exactly target 0 done (for witnesses). -/
def flagsOnlyFirstDone : Fin NUM_TAILS → Bool := fun j => decide ((j : ℕ) = 0)

/-! ## Assembly/hammer sub-state machine
(`handleHammerClick` of BoxProject lines 739-750,
`handleHammer` of StoolProject lines 490-507) -/

/-- The `assemblyState` of `BoxProject` (`'dragging' | 'hammering' | 'done'`). -/
inductive AssemblyState
  | dragging
  | hammering
  | done
deriving DecidableEq

/-- The `legsState` of `StoolProject`
(`'hidden' | 'dragging' | 'hammering' | 'done'`). -/
inductive LegsState
  | hidden
  | dragging
  | hammering
  | done
deriving DecidableEq

/-- The state touched by `handleHammerClick`: the assembly sub-state, the tap
counter, and the hammered board's vertical position (`boardRef.position.y`). -/
structure BoardAssembly where
  assemblyState : AssemblyState
  hammerTaps : ℕ
  boardY : ℚ
deriving DecidableEq

/-- Handler `handleHammerClick(targetY, boardRef)` of `BoxProject`: ignore taps unless
hammering; otherwise increment the tap count, set the board to
`targetY + max(0, GAP_HEIGHT * (1 - newTaps / HAMMER_TAPS_REQUIRED))`, and
flip to `done` (scheduling `onPhaseComplete`) once `newTaps ≥ 3`. -/
def handleHammerClick (targetY : ℚ) (s : BoardAssembly) : BoardAssembly :=
  if s.assemblyState = AssemblyState.hammering then
    let newTaps := s.hammerTaps + 1
    let remainingGap := GAP_HEIGHT * (1 - (newTaps : ℚ) / (HAMMER_TAPS_REQUIRED : ℚ))
    let nextY := targetY + max 0 remainingGap
    { assemblyState :=
        if HAMMER_TAPS_REQUIRED ≤ newTaps then AssemblyState.done
        else s.assemblyState,
      hammerTaps := newTaps,
      boardY := nextY }
  else s

/-- The state touched by `handleHammer`: the legs sub-state, the tap counter,
and the legs group's local y (`legsRef.position.y`; world height is its
negation since the seat group is inverted). -/
structure StoolAssembly where
  legsState : LegsState
  hammerTaps : ℕ
  legsY : ℚ
deriving DecidableEq

/-- Source constant `startWorldY` of `handleHammer`. -/
def STOOL_HAMMER_START_Y : ℚ := 1/2

/-- Source constant `endWorldY` of `handleHammer`. -/
def STOOL_HAMMER_END_Y : ℚ := 5/100

/-- Handler `handleHammer` of `StoolProject`: ignore taps unless hammering; otherwise
increment the tap count, set
`currentWorldY = startWorldY - (startWorldY - endWorldY) * (newTaps / 3)`,
store it inverted, and flip to `done` once `newTaps ≥ 3`. -/
def handleHammer (s : StoolAssembly) : StoolAssembly :=
  if s.legsState = LegsState.hammering then
    let newTaps := s.hammerTaps + 1
    let tapProgress := (newTaps : ℚ) / (HAMMER_TAPS_REQUIRED : ℚ)
    let currentWorldY := STOOL_HAMMER_START_Y
      - (STOOL_HAMMER_START_Y - STOOL_HAMMER_END_Y) * tapProgress
    { legsState :=
        if HAMMER_TAPS_REQUIRED ≤ newTaps then LegsState.done
        else s.legsState,
      hammerTaps := newTaps,
      legsY := -currentWorldY }
  else s

/-! ## Sawdust particle system (`SawdustSystem`, WoodProject lines 857-964)

The pool is a fixed array of `count = 1200` particle records.  `spawnBurst`
runs a 30 ms interval for `duration = 15` ticks, each tick activating up to
`batch = floor(60/15) = 4` inactive slots (scanning the pool in order and
silently stopping at the end: saturation drops the excess).  `clear()` sets
every particle's `active` flag to false.  The per-frame update integrates
gravity and drag on active non-piled particles, snapping them to the floor
into the piled state.

`Math.random()` draws are modelled as oracle inputs (`SpawnDraws`, and the
floor-snap jitter of the frame update); the transcendental values the code
stores but never reads back (`sin`/`cos` of the random spray angle, `π`-scaled
random rotations, the `π/2` piled rotation) are supplied as parameters, since
no control decision ever depends on them. -/

def PARTICLE_COUNT : ℕ := 1200

def BURST_COUNT : ℕ := 60

def BURST_DURATION : ℕ := 15

/-- Batch size `batch = Math.floor(burstCount / duration)`. -/
def SPAWN_BATCH : ℕ := BURST_COUNT / BURST_DURATION

/-- One pooled particle record. -/
structure Particle where
  active : Bool
  position : ℚ × ℚ × ℚ
  velocity : ℚ × ℚ × ℚ
  rotation : ℚ × ℚ × ℚ
  rotSpeed : ℚ × ℚ × ℚ
  scale : ℚ
  life : ℚ
  isPiled : Bool
deriving DecidableEq

/-- The initial record each pool slot is filled with. -/
def initParticle : Particle :=
  { active := false, position := (0, 0, 0), velocity := (0, 0, 0),
    rotation := (0, 0, 0), rotSpeed := (0, 0, 0), scale := 1, life := 0,
    isPiled := false }

/-- The pool as first allocated: `new Array(count)` of inactive particles. -/
def initPool : List Particle := List.replicate PARTICLE_COUNT initParticle

/-- The `Math.random()` draws consumed when activating one particle.
`sinA`/`cosA` stand for `sin`/`cos` of the random spray angle and
`rotX`/`rotY`/`rotZ` for the `Math.random()*π` rotations; the remaining
fields are raw `[0,1)` draws combined rationally exactly as in the source. -/
structure SpawnDraws where
  jx : ℚ
  jy : ℚ
  jz : ℚ
  sinA : ℚ
  cosA : ℚ
  rF : ℚ
  rVy : ℚ
  rotX : ℚ
  rotY : ℚ
  rotZ : ℚ
  rSx : ℚ
  rSy : ℚ
  rSz : ℚ
  rScale : ℚ

/-- Activation of one inactive slot inside `spawnBurst`'s scan. -/
def activateParticle (pos : ℚ × ℚ × ℚ) (d : SpawnDraws) (p : Particle) :
    Particle :=
  { p with
    active := true
    isPiled := false
    life := 0
    position := (pos.1 + (d.jx - 1/2) * (1/10), pos.2.1 + d.jy * (1/10),
      pos.2.2 + (d.jz - 1/2) * (1/10))
    velocity := (d.sinA * (1/2 + d.rF * 2), 5/2 + d.rVy * 3,
      d.cosA * (1/2 + d.rF * 2))
    rotation := (d.rotX, d.rotY, d.rotZ)
    rotSpeed := ((d.rSx - 1/2) * 15, (d.rSy - 1/2) * 15, (d.rSz - 1/2) * 15)
    scale := 1/2 + d.rScale * (7/10) }

/-- One interval tick of `spawnBurst`: scan the pool in index order,
activating inactive slots until `batch` particles have been spawned in this
tick or the pool ends (silent drop on saturation). -/
def spawnTick (pos : ℚ × ℚ × ℚ) (draws : ℕ → SpawnDraws) :
    List Particle → ℕ → List Particle
  | [], _ => []
  | p :: rest, spawned =>
      if SPAWN_BATCH ≤ spawned then p :: rest
      else if p.active then p :: spawnTick pos draws rest spawned
      else activateParticle pos (draws spawned) p
        :: spawnTick pos draws rest (spawned + 1)

/-- A whole `spawnBurst(pos)`: `duration = 15` interval ticks, each spawning
a fresh batch (the oracle is indexed by tick then by in-tick spawn count). -/
def spawnBurst (pos : ℚ × ℚ × ℚ) (draws : ℕ → ℕ → SpawnDraws)
    (ps : List Particle) : List Particle :=
  (List.range BURST_DURATION).foldl (fun acc t => spawnTick pos (draws t) acc 0) ps

/-- Operation `clear()`: deactivate every particle; the pool itself is untouched. -/
def clearPool (ps : List Particle) : List Particle :=
  ps.map (fun p => { p with active := false })

def GRAVITY : ℚ := -12

def FLOOR_Y : ℚ := 1/100

/-- The per-frame update of one particle (`useFrame` body): active non-piled
particles get gravity, horizontal drag `0.98`, position/rotation integration,
and a floor snap into the piled state.  `piHalf` stands for the `Math.PI/2`
stored into the piled rotation and `snapR` for the `Math.random()` floor
jitter; neither is ever read back by the logic. -/
def advanceParticle (piHalf snapR dt : ℚ) (p : Particle) : Particle :=
  if p.active && !p.isPiled then
    let v : ℚ × ℚ × ℚ := (p.velocity.1 * (98/100), p.velocity.2.1 + GRAVITY * dt,
      p.velocity.2.2 * (98/100))
    let posn : ℚ × ℚ × ℚ := (p.position.1 + v.1 * dt, p.position.2.1 + v.2.1 * dt,
      p.position.2.2 + v.2.2 * dt)
    let rotn : ℚ × ℚ × ℚ := (p.rotation.1 + p.rotSpeed.1 * dt,
      p.rotation.2.1 + p.rotSpeed.2.1 * dt, p.rotation.2.2 + p.rotSpeed.2.2 * dt)
    if posn.2.1 ≤ FLOOR_Y then
      { p with
        position := (posn.1, FLOOR_Y + snapR * (4/100), posn.2.2)
        velocity := (0, 0, 0)
        rotSpeed := (0, 0, 0)
        rotation := (piHalf, rotn.2.1, rotn.2.2)
        scale := p.scale * (9/10)
        isPiled := true }
    else { p with position := posn, velocity := v, rotation := rotn }
  else p

/-- The per-frame update of the whole pool, with the frame delta clamped to
`0.1` (`dt = Math.min(delta, 0.1)`) and a floor jitter oracle per slot. -/
def advancePool (piHalf : ℚ) (delta : ℚ) (snaps : ℕ → ℚ)
    (ps : List Particle) : List Particle :=
  ps.mapIdx (fun i p => advanceParticle piHalf (snaps i) (min delta (1/10)) p)

/-- Number of active particles in the pool. -/
def activeCount (ps : List Particle) : ℕ := (ps.filter (fun p => p.active)).length

/-- The pool states reachable from allocation under any interleaving of spawn
ticks, whole bursts, frame updates and clears. -/
inductive PoolReachable : List Particle → Prop
  | init : PoolReachable initPool
  | spawn (pos : ℚ × ℚ × ℚ) (draws : ℕ → SpawnDraws) {ps : List Particle} :
      PoolReachable ps → PoolReachable (spawnTick pos draws ps 0)
  | burst (pos : ℚ × ℚ × ℚ) (draws : ℕ → ℕ → SpawnDraws) {ps : List Particle} :
      PoolReachable ps → PoolReachable (spawnBurst pos draws ps)
  | frame (piHalf delta : ℚ) (snaps : ℕ → ℚ) {ps : List Particle} :
      PoolReachable ps → PoolReachable (advancePool piHalf delta snaps ps)
  | clear {ps : List Particle} :
      PoolReachable ps → PoolReachable (clearPool ps)

/-! ## Phase state machine (`GamePhase` of types.ts, `nextPhase` and
`handleCollectAndNext` of App lines 15-99) -/

/-- Enumeration `GamePhase` of `types.ts`. -/
inductive GamePhase
  | INTRO
  | TIMBER
  | CLAMPING
  | MARKING
  | CUTTING
  | ASSEMBLY_PREP
  | ASSEMBLY
  | CUTTING_BACK
  | ASSEMBLY_C
  | CUTTING_TOP
  | ASSEMBLY_D
  | SUCCESS
deriving DecidableEq

/-- One `nextPhase()` call: the phase set immediately, plus the phase a
`setTimeout` schedules right after (the `CLAMPING → MARKING ⟶ CUTTING` and
`CUTTING → ASSEMBLY_PREP ⟶ ASSEMBLY` staged transitions of level 1).  The
`SUCCESS` case performs no `setPhase` ("controlled by UI Overlay"), so the
phase is returned unchanged; the `default` cases set `INTRO`.  A level other
than 1 or 2 matches no branch. -/
def nextPhase (level : ℕ) (phase : GamePhase) : GamePhase × Option GamePhase :=
  if level = 1 then
    match phase with
    | GamePhase.INTRO => (GamePhase.TIMBER, none)
    | GamePhase.TIMBER => (GamePhase.CLAMPING, none)
    | GamePhase.CLAMPING => (GamePhase.MARKING, some GamePhase.CUTTING)
    | GamePhase.CUTTING => (GamePhase.ASSEMBLY_PREP, some GamePhase.ASSEMBLY)
    | GamePhase.ASSEMBLY => (GamePhase.CUTTING_BACK, none)
    | GamePhase.CUTTING_BACK => (GamePhase.ASSEMBLY_C, none)
    | GamePhase.ASSEMBLY_C => (GamePhase.CUTTING_TOP, none)
    | GamePhase.CUTTING_TOP => (GamePhase.ASSEMBLY_D, none)
    | GamePhase.ASSEMBLY_D => (GamePhase.SUCCESS, none)
    | GamePhase.SUCCESS => (GamePhase.SUCCESS, none)
    | _ => (GamePhase.INTRO, none)
  else if level = 2 then
    match phase with
    | GamePhase.INTRO => (GamePhase.CLAMPING, none)
    | GamePhase.CLAMPING => (GamePhase.CUTTING, none)
    | GamePhase.CUTTING => (GamePhase.ASSEMBLY, none)
    | GamePhase.ASSEMBLY => (GamePhase.SUCCESS, none)
    | GamePhase.SUCCESS => (GamePhase.SUCCESS, none)
    | _ => (GamePhase.INTRO, none)
  else (phase, none)

/-- One advancement step of the running app: a pending scheduled transition
fires first; otherwise the active phase's completion signal calls
`nextPhase`. -/
def phaseStep (level : ℕ) : GamePhase × Option GamePhase → GamePhase × Option GamePhase
  | (_, some q) => (q, none)
  | (p, none) => nextPhase level p

/-- The phase trajectory from `INTRO` under successive completion/timer
steps. -/
def phaseTrace (level k : ℕ) : GamePhase × Option GamePhase :=
  (phaseStep level)^[k] (GamePhase.INTRO, none)

/-- Position of a phase in the Box project's fixed order. -/
def boxPhaseIndex : GamePhase → ℕ
  | GamePhase.INTRO => 0
  | GamePhase.TIMBER => 1
  | GamePhase.CLAMPING => 2
  | GamePhase.MARKING => 3
  | GamePhase.CUTTING => 4
  | GamePhase.ASSEMBLY_PREP => 5
  | GamePhase.ASSEMBLY => 6
  | GamePhase.CUTTING_BACK => 7
  | GamePhase.ASSEMBLY_C => 8
  | GamePhase.CUTTING_TOP => 9
  | GamePhase.ASSEMBLY_D => 10
  | GamePhase.SUCCESS => 11

/-- Position of a phase in the Stool project's fixed order (phases the stool
never visits are mapped past the end). -/
def stoolPhaseIndex : GamePhase → ℕ
  | GamePhase.INTRO => 0
  | GamePhase.CLAMPING => 1
  | GamePhase.CUTTING => 2
  | GamePhase.ASSEMBLY => 3
  | GamePhase.SUCCESS => 4
  | _ => 5

/-- Handler `handleCollectAndNext` of App: append the crafted item, switch the level
(1 → 2, otherwise → 1), and set the phase back to `INTRO`. -/
def handleCollectAndNext (level : ℕ) : ℕ × GamePhase :=
  if level = 1 then (2, GamePhase.INTRO) else (1, GamePhase.INTRO)

/-! ## Per-project reset on re-entering INTRO
(`BoxProject` useEffect lines 752-769, `StoolProject` state lines 414 and
461-466, `handleCollectAndNext` of App lines 84-99)

The session-level state relevant to restarts: the box project's three
waste-cut arrays, the stool project's drill-hole flags, and the sawdust pool.
`BoxProject`'s `useEffect` explicitly resets its three arrays and calls
`sawdustRef.clear()` whenever the phase becomes `INTRO`.  The stool's flags
carry no such effect, but both projects' per-component state (including the
`SawdustSystem` rendered inside them) is React `useState`/`useRef` state of
the mounted component: switching `level` unmounts one project and mounts the
other, discarding the old state and re-initialising `useState` to its
initial all-false / all-inactive values.  `mountProject` models exactly this
remount (discarded state is represented by its initial value, which is what
any later mount observes), followed by the mounted component's effect. -/

structure SessionState where
  level : ℕ
  phase : GamePhase
  wastesCutBFront : Fin NUM_TAILS → Bool
  wastesCutBBack : Fin NUM_TAILS → Bool
  wastesCutD : Fin NUM_TAILS → Bool
  holesDrilled : Fin 4 → Bool
  sawdust : List Particle

/-- The `phase === INTRO` branch of `BoxProject`'s `useEffect`: reset the
three waste arrays to `new Array(NUM_TAILS).fill(false)` and call
`sawdustRef.current?.clear()` (the board-position resets it also performs are
not part of the completion state modelled here). -/
def boxIntroEffect (s : SessionState) : SessionState :=
  if s.phase = GamePhase.INTRO then
    { s with
      wastesCutBFront := fun _ => false
      wastesCutBBack := fun _ => false
      wastesCutD := fun _ => false
      sawdust := clearPool s.sawdust }
  else s

/-- Mounting the project component for the current level: fresh `useState`
values for the mounted project and a freshly allocated `SawdustSystem`, then
the mounted component's phase effect (`BoxProject` resets on `INTRO`; the
stool's effect only reacts to `ASSEMBLY`). -/
def mountProject (s : SessionState) : SessionState :=
  if s.level = 1 then
    boxIntroEffect
      { s with
        wastesCutBFront := fun _ => false
        wastesCutBBack := fun _ => false
        wastesCutD := fun _ => false
        holesDrilled := fun _ => false
        sawdust := initPool }
  else
    { s with
      wastesCutBFront := fun _ => false
      wastesCutBBack := fun _ => false
      wastesCutD := fun _ => false
      holesDrilled := fun _ => false
      sawdust := initPool }

/-- The collect action on the whole session: switch the level, set the phase
back to `INTRO` (the `handleCollectAndNext` switch), and remount the project
component for the new level. -/
def sessionCollectAndNext (s : SessionState) : SessionState :=
  let next := handleCollectAndNext s.level
  mountProject { s with level := next.1, phase := next.2 }

/-! ## Timber stage (`TimberStage` `handleCut`, WoodProject lines 163-236)

Two big trees and five saplings at fixed positions.  Each chainsaw move first
checks every sapling: if the saw tip is horizontally within `0.8` of a
sapling and below height `1.5`, the sapling warning is shown and (because the
tree loop requires `!hittingSapling`) no tree progress accrues this call.
Otherwise each uncut tree within horizontal distance `1.2` at height
`0 < y < 3` gains 2 progress (capped at 100); on reaching 100 the tree
becomes cut and the raw-wood counter increments.  Distances are compared in
squared form (the source takes a square root first; both sides are
nonnegative).  The fall rotation (`Math.atan2`, visual only) and the
random sawdust bursts are not part of the progress state modelled here. -/

def TREES : List (ℚ × ℚ) := [(-3, -2), (3, 0)]

def SAPLINGS : List (ℚ × ℚ) :=
  [(-(45/10), -3), (-(15/10), -1), (45/10, 15/10), (15/10, 5/10), (-2, 2)]

def SAPLING_RADIUS : ℚ := 8/10

def SAPLING_MAX_Y : ℚ := 15/10

def TREE_RADIUS : ℚ := 12/10

def treePos (i : Fin 2) : ℚ × ℚ := TREES.getD (i : ℕ) (0, 0)

/-- The sapling scan at the top of `handleCut`. -/
def hittingSapling (sawX sawY sawZ : ℚ) : Bool :=
  SAPLINGS.any (fun s =>
    decide ((sawX - s.1)^2 + (sawZ - s.2)^2 < SAPLING_RADIUS^2
      ∧ sawY < SAPLING_MAX_Y))

/-- The progress state of the timber stage. -/
structure TimberState where
  treesCut : Fin 2 → Bool
  cutProgress : Fin 2 → ℚ
  rawWood : ℕ
  saplingWarningShown : Bool

/-- The per-tree update of one `handleCut` call: the pair
(new progress, new cut flag). -/
def timberTreeUpdate (sawX sawY sawZ : ℚ) (st : TimberState) (i : Fin 2) :
    ℚ × Bool :=
  if !st.treesCut i && !hittingSapling sawX sawY sawZ then
    if ((sawX - (treePos i).1)^2 + (sawZ - (treePos i).2)^2 < TREE_RADIUS^2)
        ∧ (0 < sawY ∧ sawY < 3) then
      let np := min 100 (st.cutProgress i + 2)
      (np, decide (100 ≤ np))
    else (st.cutProgress i, st.treesCut i)
  else (st.cutProgress i, st.treesCut i)

/-- One `handleCut` call of `TimberStage`. -/
def timberHandleCut (sawX sawY sawZ : ℚ) (st : TimberState) : TimberState :=
  { treesCut := fun i => (timberTreeUpdate sawX sawY sawZ st i).2
    cutProgress := fun i => (timberTreeUpdate sawX sawY sawZ st i).1
    rawWood := st.rawWood
      + ((List.finRange 2).filter (fun i =>
          !st.treesCut i && (timberTreeUpdate sawX sawY sawZ st i).2)).length
    saplingWarningShown := hittingSapling sawX sawY sawZ }

/-! ## Theorems -/

theorem tailCentersLoop_length (pitch start : ℚ) (n : ℕ) :
    (tailCentersLoop pitch start n).length = n := by
  induction n generalizing start with
  | zero => rfl
  | succ n ih => simp [tailCentersLoop, ih]

theorem tailCentersLoop_get (pitch : ℚ) (n : ℕ) :
    ∀ (start : ℚ) (i : ℕ) (h : i < (tailCentersLoop pitch start n).length),
      (tailCentersLoop pitch start n).get ⟨i, h⟩ = start + i * pitch := by
  induction n with
  | zero => intro start i h; simp [tailCentersLoop] at h
  | succ n ih =>
      intro start i h
      cases i with
      | zero => simp [tailCentersLoop]
      | succ i =>
          have h' : i < (tailCentersLoop pitch (start + pitch) n).length := by
            simpa [tailCentersLoop, tailCentersLoop_length] using h
          have := ih (start + pitch) i h'
          simp only [tailCentersLoop, List.get_cons_succ]
          rw [this]
          push_cast
          ring

theorem computeTailCenters_length (boardWidth tailWidth : ℚ) (tailCount : ℕ) :
    (computeTailCenters boardWidth tailWidth tailCount).length = tailCount := by
  simp [computeTailCenters, tailCentersLoop_length]

theorem computeTailCenters_get (boardWidth tailWidth : ℚ) (tailCount : ℕ)
    (i : ℕ) (h : i < (computeTailCenters boardWidth tailWidth tailCount).length) :
    (computeTailCenters boardWidth tailWidth tailCount).get ⟨i, h⟩ =
      (-boardWidth / 2 + pinWidthOf boardWidth tailWidth tailCount + tailWidth / 2)
        + i * (tailWidth + pinWidthOf boardWidth tailWidth tailCount) := by
  simpa [computeTailCenters] using
    tailCentersLoop_get (tailWidth + pinWidthOf boardWidth tailWidth tailCount)
      tailCount (-boardWidth / 2 + pinWidthOf boardWidth tailWidth tailCount + tailWidth / 2) i
      (by simpa [computeTailCenters] using h)

/-- C1: for every configuration with at least one tail, nonnegative tail width
and total tail width strictly below the board width, the tail-center
computation returns exactly `tailCount` centers, strictly increasing,
uniformly pitched by `tailWidth + pinWidth`, symmetric about the board's
horizontal center `x = 0`, with `pinWidth ≥ 0`. -/
theorem tailCenters_layout_spec (boardWidth tailWidth : ℚ) (tailCount : ℕ)
    (hn : 1 ≤ tailCount) (hw : 0 ≤ tailWidth)
    (hlt : (tailCount : ℚ) * tailWidth < boardWidth) :
    (computeTailCenters boardWidth tailWidth tailCount).length = tailCount ∧
    0 ≤ pinWidthOf boardWidth tailWidth tailCount ∧
    (∀ (i : ℕ) (h1 : i + 1 < (computeTailCenters boardWidth tailWidth tailCount).length)
        (h0 : i < (computeTailCenters boardWidth tailWidth tailCount).length),
      (computeTailCenters boardWidth tailWidth tailCount).get ⟨i + 1, h1⟩
        - (computeTailCenters boardWidth tailWidth tailCount).get ⟨i, h0⟩
        = tailWidth + pinWidthOf boardWidth tailWidth tailCount) ∧
    (∀ (i j : ℕ) (hi : i < (computeTailCenters boardWidth tailWidth tailCount).length)
        (hj : j < (computeTailCenters boardWidth tailWidth tailCount).length), i < j →
      (computeTailCenters boardWidth tailWidth tailCount).get ⟨i, hi⟩
        < (computeTailCenters boardWidth tailWidth tailCount).get ⟨j, hj⟩) ∧
    (∀ (i j : ℕ) (hi : i < (computeTailCenters boardWidth tailWidth tailCount).length)
        (hj : j < (computeTailCenters boardWidth tailWidth tailCount).length),
      i + j + 1 = tailCount →
      (computeTailCenters boardWidth tailWidth tailCount).get ⟨i, hi⟩
        + (computeTailCenters boardWidth tailWidth tailCount).get ⟨j, hj⟩ = 0) := by
  have hden : (0 : ℚ) < (tailCount : ℚ) + 1 := by positivity
  have hpin : 0 < pinWidthOf boardWidth tailWidth tailCount := by
    have hnum : 0 < boardWidth - tailWidth * (tailCount : ℚ) := by
      have : (tailCount : ℚ) * tailWidth = tailWidth * (tailCount : ℚ) := by ring
      linarith [hlt, this.symm.le]
    exact div_pos hnum hden
  have hpitch : 0 < tailWidth + pinWidthOf boardWidth tailWidth tailCount := by linarith
  refine ⟨computeTailCenters_length _ _ _, le_of_lt hpin, ?_, ?_, ?_⟩
  · intro i h1 h0
    rw [computeTailCenters_get _ _ _ _ h1, computeTailCenters_get _ _ _ _ h0]
    push_cast
    ring
  · intro i j hi hj hij
    rw [computeTailCenters_get _ _ _ _ hi, computeTailCenters_get _ _ _ _ hj]
    have : (i : ℚ) < (j : ℚ) := by exact_mod_cast hij
    nlinarith [hpitch, this]
  · intro i j hi hj hsum
    rw [computeTailCenters_get _ _ _ _ hi, computeTailCenters_get _ _ _ _ hj]
    have hij : (i : ℚ) + (j : ℚ) = (tailCount : ℚ) - 1 := by
      have : ((i + j + 1 : ℕ) : ℚ) = (tailCount : ℚ) := by rw [hsum]
      push_cast at this
      linarith
    have hne : ((tailCount : ℚ) + 1) ≠ 0 := ne_of_gt hden
    have hpinval : pinWidthOf boardWidth tailWidth tailCount * ((tailCount : ℚ) + 1)
        = boardWidth - tailWidth * (tailCount : ℚ) := by
      unfold pinWidthOf
      field_simp
    nlinarith [hpinval, hij]

/-- Witness for C1 at the shipped configuration
(`boardWidth = 2`, `tailWidth = TAIL_WIDTH_TIP = 13/40`, `tailCount = 4`). -/
theorem tailCenters_layout_spec_witness :
    (computeTailCenters 2 (13/40) 4).length = 4 ∧
    0 ≤ pinWidthOf 2 (13/40) 4 := by
  have h := tailCenters_layout_spec 2 (13/40) 4 (by norm_num) (by norm_num)
    (by norm_num)
  exact ⟨h.1, h.2.1⟩

/-- C8 counterexample: at the degenerate configuration `boardWidth = 2`,
`tailWidth = 1`, `tailCount = 4` we have `tailCount * tailWidth ≥ boardWidth`
(the computed pin width is negative), yet `computeTailCenters` neither returns
an empty sequence nor signals any error: it still produces 4 centers. -/
theorem degenerate_config_not_rejected :
    (2 : ℚ) ≤ (4 : ℚ) * 1 ∧
    pinWidthOf 2 1 4 < 0 ∧
    computeTailCenters 2 1 4 ≠ [] ∧
    (computeTailCenters 2 1 4).length = 4 := by
  refine ⟨by norm_num, ?_, ?_, computeTailCenters_length 2 1 4⟩
  · norm_num [pinWidthOf]
  · have h := computeTailCenters_length 2 1 4
    intro hnil
    rw [hnil] at h
    simp at h

/-- C8 amended: the tail-center computation performs no configuration
validation at all.  Even when `tailCount * tailWidth ≥ boardWidth` (degenerate
pins, negative pin width), it does not fail, return empty, or signal an error:
it returns `tailCount` centers computed with the negative pin width. -/
theorem degenerate_config_behavior (boardWidth tailWidth : ℚ) (tailCount : ℕ)
    (hge : boardWidth ≤ (tailCount : ℚ) * tailWidth) :
    (computeTailCenters boardWidth tailWidth tailCount).length = tailCount ∧
    pinWidthOf boardWidth tailWidth tailCount ≤ 0 := by
  refine ⟨computeTailCenters_length _ _ _, ?_⟩
  have hden : (0 : ℚ) < (tailCount : ℚ) + 1 := by positivity
  have hnum : boardWidth - tailWidth * (tailCount : ℚ) ≤ 0 := by
    have : (tailCount : ℚ) * tailWidth = tailWidth * (tailCount : ℚ) := by ring
    linarith [this ▸ hge]
  exact div_nonpos_of_nonpos_of_nonneg hnum (le_of_lt hden)

/-- Witness for the amended C8 theorem at the concrete degenerate input. -/
theorem degenerate_config_behavior_witness :
    (computeTailCenters 2 1 4).length = 4 ∧ pinWidthOf 2 1 4 ≤ 0 :=
  degenerate_config_behavior 2 1 4 (by norm_num)

theorem markStep_of_true {n : ℕ} {hit flags : Fin n → Bool} {i : Fin n}
    (h : flags i = true) : markStep n hit flags i = true := by
  simp [markStep, h]

theorem markStep_of_all {n : ℕ} {hit flags : Fin n → Bool}
    (h : allComplete n flags = true) : markStep n hit flags = flags := by
  funext i
  have hi : flags i = true := by
    simpa [allComplete] using of_decide_eq_true h i
  simp [markStep, hi]

theorem runFlags_mono {n : ℕ} {α : Type} (hit : α → Fin n → Bool)
    (xs : List α) : ∀ (flags : Fin n → Bool) (i : Fin n),
    flags i = true → runFlags n hit flags xs i = true := by
  induction xs with
  | nil => intro flags i h; simpa [runFlags] using h
  | cons x xs ih =>
      intro flags i h
      exact ih (markStep n (hit x) flags) i (markStep_of_true h)

theorem runFlags_all {n : ℕ} {α : Type} (hit : α → Fin n → Bool)
    (xs : List α) (flags : Fin n → Bool)
    (h : allComplete n flags = true) :
    allComplete n (runFlags n hit flags xs) = true := by
  refine decide_eq_true ?_
  intro i
  exact runFlags_mono hit xs flags i (of_decide_eq_true h i)

theorem stepEmitsComplete_eq {n : ℕ} (hit flags : Fin n → Bool) :
    stepEmitsComplete n hit flags
      = (!allComplete n flags && allComplete n (markStep n hit flags)) := by
  by_cases hall : allComplete n flags = true
  · have hm := @markStep_of_all n hit flags hall
    have hch : stepChanged n hit flags = false := by
      refine decide_eq_false ?_
      rintro ⟨i, hfi, -⟩
      have := of_decide_eq_true hall i
      simp [this] at hfi
    simp [stepEmitsComplete, hch, hall]
  · have hall' : allComplete n flags = false := by
      cases h : allComplete n flags
      · rfl
      · exact absurd h hall
    by_cases hms : allComplete n (markStep n hit flags) = true
    · have hch : stepChanged n hit flags = true := by
        refine decide_eq_true ?_
        have : ¬ ∀ i, flags i = true := by
          intro hforall
          exact hall (decide_eq_true hforall)
        obtain ⟨i, hi⟩ := not_forall.mp this
        have hfi : flags i = false := by
          cases h : flags i
          · rfl
          · exact absurd h hi
        have hmi : markStep n hit flags i = true := of_decide_eq_true hms i
        have hhi : hit i = true := by
          simpa [markStep, hfi] using hmi
        exact ⟨i, hfi, hhi⟩
      simp [stepEmitsComplete, hch, hall', hms]
    · have hms' : allComplete n (markStep n hit flags) = false := by
        cases h : allComplete n (markStep n hit flags)
        · rfl
        · exact absurd h hms
      simp [stepEmitsComplete, hms', hall']

/-- The core counting lemma: over any sequence of handler calls, the number of
`onPhaseComplete` emissions is 1 if the run starts incomplete and ends
complete, and 0 otherwise. -/
theorem countCompletions_eq {n : ℕ} {α : Type} (hit : α → Fin n → Bool)
    (xs : List α) : ∀ flags : Fin n → Bool,
    countCompletions n hit flags xs
      = if allComplete n flags = true then 0
        else if allComplete n (runFlags n hit flags xs) = true then 1 else 0 := by
  induction xs with
  | nil =>
      intro flags
      cases h : allComplete n flags <;> simp [countCompletions, runFlags, h]
  | cons x xs ih =>
      intro flags
      by_cases hall : allComplete n flags = true
      · have hm := @markStep_of_all n (hit x) flags hall
        have hrun := runFlags_all hit xs flags hall
        have hemit : stepEmitsComplete n (hit x) flags = false := by
          rw [stepEmitsComplete_eq, hall]
          rfl
        simp [countCompletions, hemit, ih, hm, hall]
      · have hall' : allComplete n flags = false := by
          cases h : allComplete n flags
          · rfl
          · exact absurd h hall
        have hemit := stepEmitsComplete_eq (hit x) flags
        rw [hall'] at hemit
        by_cases hms : allComplete n (markStep n (hit x) flags) = true
        · rw [hms] at hemit
          have hrun := runFlags_all hit xs (markStep n (hit x) flags) hms
          simp [countCompletions, hemit, ih, hms, hall', runFlags, hrun]
        · have hms' : allComplete n (markStep n (hit x) flags) = false := by
            cases h : allComplete n (markStep n (hit x) flags)
            · rfl
            · exact absurd h hms
          rw [hms'] at hemit
          simp only [Bool.and_false] at hemit
          simp [countCompletions, hemit, ih, hms', runFlags, hall']

/-- C2: within one cutting/drilling phase started from all targets incomplete,
`onPhaseComplete` fires exactly once over any sequence of handler calls that
completes all targets (in any order), and zero times otherwise; moreover a
given call emits it precisely when it turns the last remaining target
complete. -/
theorem phase_complete_fires_once :
    (∀ xs : List ℚ,
      countCompletions NUM_TAILS boxHit (fun _ => false) xs
        = if allComplete NUM_TAILS (runFlags NUM_TAILS boxHit (fun _ => false) xs) = true
          then 1 else 0)
  ∧ (∀ ps : List (ℚ × ℚ),
      countCompletions 4 (fun p => stoolHit p.1 p.2) (fun _ => false) ps
        = if allComplete 4 (runFlags 4 (fun p => stoolHit p.1 p.2) (fun _ => false) ps) = true
          then 1 else 0)
  ∧ (∀ (x : ℚ) (flags : Fin NUM_TAILS → Bool),
      stepEmitsComplete NUM_TAILS (boxHit x) flags
        = (!allComplete NUM_TAILS flags
            && allComplete NUM_TAILS (markStep NUM_TAILS (boxHit x) flags))) := by
  refine ⟨?_, ?_, ?_⟩
  · intro xs
    rw [countCompletions_eq]
    have h : allComplete NUM_TAILS (fun _ => false) = false := by decide
    rw [h]
    simp
  · intro ps
    rw [countCompletions_eq]
    have h : allComplete 4 (fun _ => false) = false := by decide
    rw [h]
    simp
  · intro x flags
    exact stepEmitsComplete_eq (boxHit x) flags

/-! ### Concrete values of the shipped box configuration -/

theorem CUT_THRESHOLD_eq : CUT_THRESHOLD = 13/60 := by
  norm_num [CUT_THRESHOLD, TAIL_WIDTH_TIP, BOARD_WIDTH, NUM_TAILS, TOTAL_TAIL_FRAC]

theorem TAIL_CENTERS_eq :
    TAIL_CENTERS = [-(279/400), -(93/400), 93/400, 279/400] := by
  norm_num [TAIL_CENTERS, computeTailCenters, tailCentersLoop, pinWidthOf,
    BOARD_WIDTH, TAIL_WIDTH_TIP, NUM_TAILS, TOTAL_TAIL_FRAC]

theorem tailCenter_eq (i : Fin NUM_TAILS) :
    tailCenter i = -(279/400) + (i : ℚ) * (93/200) := by
  have h4 : NUM_TAILS = 4 := rfl
  rw [tailCenter, TAIL_CENTERS_eq]
  match i with
  | ⟨0, _⟩ => norm_num
  | ⟨1, _⟩ => norm_num
  | ⟨2, _⟩ => norm_num
  | ⟨3, _⟩ => norm_num
  | ⟨n + 4, hn⟩ => exact absurd (h4 ▸ hn) (by omega)

/-- Strict separation of consecutive (hence all) tail centers: for `i < j` the
centers are at least one pitch `93/200` apart, which strictly exceeds twice
the hit threshold `2 * 13/60`. -/
theorem tailCenter_sep {i j : Fin NUM_TAILS} (hij : i < j) :
    2 * CUT_THRESHOLD < tailCenter j - tailCenter i := by
  rw [CUT_THRESHOLD_eq, tailCenter_eq, tailCenter_eq]
  have h1 : (i : ℚ) + 1 ≤ (j : ℚ) := by
    have : (i : ℕ) + 1 ≤ (j : ℕ) := hij
    exact_mod_cast this
  nlinarith [h1]

/-- The hit zones of distinct targets are disjoint: no tool position is within
threshold of two different tail centers. -/
theorem boxHit_disjoint (x : ℚ) (i j : Fin NUM_TAILS) (hij : i ≠ j) :
    ¬(boxHit x i = true ∧ boxHit x j = true) := by
  rintro ⟨hi, hj⟩
  rw [boxHit, decide_eq_true_eq, abs_lt] at hi hj
  rcases lt_or_gt_of_ne hij with h | h
  · have := tailCenter_sep h
    linarith [hi.1, hi.2, hj.1, hj.2, this]
  · have := tailCenter_sep h
    linarith [hi.1, hi.2, hj.1, hj.2, this]

/-- Zones are ordered: a position hitting a lower-indexed target is strictly
left of any position hitting a higher-indexed one. -/
theorem boxHit_ordered {i j : Fin NUM_TAILS} (hij : i < j) (u v : ℚ)
    (hu : boxHit u i = true) (hv : boxHit v j = true) : u < v := by
  rw [boxHit, decide_eq_true_eq, abs_lt] at hu hv
  have := tailCenter_sep hij
  linarith [hu.1, hu.2, hv.1, hv.2, this]

/-- C3: within one phase instance of the box cut handler, each per-target
completion flag is monotone false-to-true (once set it survives every later
call), and a call whose tool position lies inside an already-completed
target's hit zone leaves the completion state unchanged, emits no
`onPhaseComplete`, and spawns no particle burst. -/
theorem cut_targets_monotone_idempotent :
    (∀ (flags : Fin NUM_TAILS → Bool) (xs : List ℚ) (i : Fin NUM_TAILS),
        flags i = true → runFlags NUM_TAILS boxHit flags xs i = true)
  ∧ (∀ (flags : Fin NUM_TAILS → Bool) (x : ℚ) (i : Fin NUM_TAILS),
        flags i = true → boxHit x i = true →
        markStep NUM_TAILS (boxHit x) flags = flags
        ∧ stepEmitsComplete NUM_TAILS (boxHit x) flags = false
        ∧ stepBursts NUM_TAILS (boxHit x) flags = []) := by
  constructor
  · intro flags xs i h
    exact runFlags_mono boxHit xs flags i h
  · intro flags x i hflag hhit
    have hother : ∀ j : Fin NUM_TAILS, ¬flags j = true → boxHit x j = false := by
      intro j hj
      by_cases hji : j = i
      · exact absurd (hji ▸ hflag) hj
      · cases h : boxHit x j
        · rfl
        · exact absurd ⟨hhit, h⟩ (boxHit_disjoint x i j (fun he => hji he.symm))
    have hmark : markStep NUM_TAILS (boxHit x) flags = flags := by
      funext j
      by_cases hj : flags j = true
      · simp [markStep, hj]
      · simp [markStep, hother j hj, Bool.eq_false_iff.mpr hj]
    refine ⟨hmark, ?_, ?_⟩
    · have hch : stepChanged NUM_TAILS (boxHit x) flags = false := by
        refine decide_eq_false ?_
        rintro ⟨j, hjf, hjh⟩
        have := hother j (by simp [hjf])
        simp [this] at hjh
      simp [stepEmitsComplete, hch]
    · rw [stepBursts, List.filter_eq_nil_iff]
      intro j _
      by_cases hj : flags j = true
      · simp [hj]
      · simp [hother j hj]

/-- Witness for C3 at a concrete already-completed state: target 0 completed,
tool repositioned onto target 0's center. -/
theorem cut_targets_monotone_idempotent_witness :
    runFlags NUM_TAILS boxHit flagsOnlyFirstDone [1/2, -(1/2)]
        ⟨0, by norm_num [NUM_TAILS]⟩ = true
    ∧ markStep NUM_TAILS (boxHit (-(279/400))) flagsOnlyFirstDone = flagsOnlyFirstDone
    ∧ stepBursts NUM_TAILS (boxHit (-(279/400))) flagsOnlyFirstDone = [] := by
  have h0 : flagsOnlyFirstDone ⟨0, by norm_num [NUM_TAILS]⟩ = true := by decide
  have hhit : boxHit (-(279/400)) ⟨0, by norm_num [NUM_TAILS]⟩ = true := by
    rw [boxHit, decide_eq_true_eq, tailCenter_eq, CUT_THRESHOLD_eq]
    norm_num
  refine ⟨cut_targets_monotone_idempotent.1 _ _ _ h0, ?_, ?_⟩
  · exact (cut_targets_monotone_idempotent.2 _ _ _ h0 hhit).1
  · exact (cut_targets_monotone_idempotent.2 _ _ _ h0 hhit).2.2

theorem runFlags_eq_any {n : ℕ} {α : Type} (hit : α → Fin n → Bool)
    (xs : List α) : ∀ (flags : Fin n → Bool) (i : Fin n),
    runFlags n hit flags xs i = (flags i || xs.any (fun x => hit x i)) := by
  induction xs with
  | nil => intro flags i; simp [runFlags]
  | cons x xs ih =>
      intro flags i
      rw [runFlags, ih]
      simp [markStep, Bool.or_assoc]

/-- A filter over a duplicate-free list whose predicate holds for at most one
element has length at most one. -/
theorem filter_length_le_one {α : Type} (l : List α) (p : α → Bool)
    (hnd : l.Nodup)
    (h : ∀ a b, a ∈ l → b ∈ l → p a = true → p b = true → a = b) :
    (l.filter p).length ≤ 1 := by
  induction l with
  | nil => simp
  | cons a l ih =>
      rw [List.nodup_cons] at hnd
      by_cases hpa : p a = true
      · have hnil : l.filter p = [] := by
          rw [List.filter_eq_nil_iff]
          intro b hb hpb
          exact hnd.1 ((h a b (by simp) (by simp [hb]) hpa hpb) ▸ hb)
        simp [List.filter_cons, hpa, hnil]
      · have hpa' : p a = false := by
          cases hp : p a
          · rfl
          · exact absurd hp hpa
        rw [List.filter_cons_of_neg (by simp [hpa'])]
        exact ih hnd.2 (fun b c hb hc => h b c (by simp [hb]) (by simp [hc]))

/-- C10: the box hit threshold `TAIL_WIDTH_TIP / 1.5` is strictly below half
the pitch between consecutive tail centers, so the 4 hit zones are pairwise
disjoint; hence a single `handleCut` call marks at most one new target, a
target is complete after a call sequence iff some call hit it, and a strictly
increasing sweep of the tool that reaches every target completes the targets
in ascending order of center (target `i` strictly before target `j` for
`i < j`). -/
theorem hit_zones_disjoint_sweep_ascending :
    (2 * CUT_THRESHOLD < tailCenter ⟨1, by norm_num [NUM_TAILS]⟩
        - tailCenter ⟨0, by norm_num [NUM_TAILS]⟩)
  ∧ (∀ (x : ℚ) (i j : Fin NUM_TAILS), i ≠ j →
        ¬(boxHit x i = true ∧ boxHit x j = true))
  ∧ (∀ (x : ℚ) (flags : Fin NUM_TAILS → Bool),
        (stepBursts NUM_TAILS (boxHit x) flags).length ≤ 1)
  ∧ (∀ (xs : List ℚ) (i : Fin NUM_TAILS),
        runFlags NUM_TAILS boxHit (fun _ => false) xs i
          = xs.any (fun x => boxHit x i))
  ∧ (∀ xs : List ℚ, xs.Pairwise (· < ·) →
        (∀ i : Fin NUM_TAILS, ∃ x ∈ xs, boxHit x i = true) →
        ∀ i j : Fin NUM_TAILS, i < j →
          xs.findIdx (fun x => boxHit x i) < xs.findIdx (fun x => boxHit x j)) := by
  refine ⟨?_, boxHit_disjoint, ?_, ?_, ?_⟩
  · have h := @tailCenter_sep ⟨0, by norm_num [NUM_TAILS]⟩
      ⟨1, by norm_num [NUM_TAILS]⟩ (by norm_num [Fin.lt_def])
    exact h
  · intro x flags
    refine filter_length_le_one _ _ (List.nodup_finRange NUM_TAILS) ?_
    intro a b _ _ hpa hpb
    by_contra hne
    have ha : boxHit x a = true := by
      simp only [Bool.and_eq_true] at hpa
      exact hpa.2
    have hb : boxHit x b = true := by
      simp only [Bool.and_eq_true] at hpb
      exact hpb.2
    exact boxHit_disjoint x a b hne ⟨ha, hb⟩
  · intro xs i
    rw [runFlags_eq_any]
    simp
  · intro xs hsort hall i j hij
    set p := fun x => boxHit x i with hp
    set q := fun x => boxHit x j with hq
    have hpl : xs.findIdx p < xs.length :=
      List.findIdx_lt_length_of_exists (hall i)
    have hql : xs.findIdx q < xs.length :=
      List.findIdx_lt_length_of_exists (hall j)
    have hpe : p (xs.get ⟨xs.findIdx p, hpl⟩) = true := List.findIdx_getElem
    have hqe : q (xs.get ⟨xs.findIdx q, hql⟩) = true := List.findIdx_getElem
    have hlt : xs.get ⟨xs.findIdx p, hpl⟩ < xs.get ⟨xs.findIdx q, hql⟩ :=
      boxHit_ordered hij _ _ hpe hqe
    by_contra hle
    rcases Nat.lt_or_ge (xs.findIdx q) (xs.findIdx p) with hqlt | hge
    · have := List.pairwise_iff_get.mp hsort ⟨xs.findIdx q, hql⟩
        ⟨xs.findIdx p, hpl⟩ hqlt
      exact absurd (lt_trans this hlt) (lt_irrefl _)
    · have heq : xs.findIdx p = xs.findIdx q := Nat.le_antisymm hge (Nat.le_of_not_lt hle)
      rw [show (⟨xs.findIdx p, hpl⟩ : Fin xs.length) = ⟨xs.findIdx q, hql⟩ from
        Fin.ext heq] at hlt
      exact lt_irrefl _ hlt

/-- Witness for C10's universally quantified parts: an explicit increasing
sweep through all four centers completes the targets in ascending order. -/
theorem hit_zones_disjoint_sweep_ascending_witness :
    (stepBursts NUM_TAILS (boxHit 0) flagsOnlyFirstDone).length ≤ 1
    ∧ (List.findIdx (fun x => boxHit x ⟨0, by norm_num [NUM_TAILS]⟩)
          [-(279/400), -(93/400), 93/400, 279/400]
        < List.findIdx (fun x => boxHit x ⟨3, by norm_num [NUM_TAILS]⟩)
          [-(279/400), -(93/400), 93/400, 279/400]) := by
  constructor
  · exact hit_zones_disjoint_sweep_ascending.2.2.1 0 flagsOnlyFirstDone
  · refine hit_zones_disjoint_sweep_ascending.2.2.2.2
      [-(279/400), -(93/400), 93/400, 279/400] ?_ ?_ _ _ (by norm_num [Fin.lt_def])
    · norm_num
    · intro i
      refine ⟨tailCenter i, ?_, ?_⟩
      · rw [tailCenter_eq]
        have h4 : (i : ℕ) < 4 := i.isLt
        interval_cases h : (i : ℕ) <;> norm_num [h]
      · rw [boxHit, decide_eq_true_eq, CUT_THRESHOLD_eq]
        norm_num

/-- C4: starting the hammering sub-state with a zero tap counter, after the
`k`-th tap (`1 ≤ k ≤ 3`) the box board sits at
`targetY + GAP_HEIGHT * (1 - k / HAMMER_TAPS_REQUIRED)`; after exactly the
third tap the gap is exactly zero (`boardY = targetY`) and the state is
`done`, and before that the state is still `hammering`.  The stool's
`handleHammer` satisfies the same law with its own gap
`startWorldY - endWorldY = 0.45`: the legs' world height after the `k`-th tap
is `endWorldY + 0.45 * (1 - k/3)`, reaching exactly `endWorldY` and `done`
at the third tap. -/
theorem hammer_taps_close_gap (targetY y0 y1 : ℚ) (k : ℕ)
    (h1 : 1 ≤ k) (h3 : k ≤ 3) :
    ((handleHammerClick targetY)^[k]
        ⟨AssemblyState.hammering, 0, y0⟩).boardY
      = targetY + GAP_HEIGHT * (1 - (k : ℚ) / (HAMMER_TAPS_REQUIRED : ℚ))
    ∧ ((handleHammerClick targetY)^[k]
        ⟨AssemblyState.hammering, 0, y0⟩).hammerTaps = k
    ∧ (k < 3 → ((handleHammerClick targetY)^[k]
        ⟨AssemblyState.hammering, 0, y0⟩).assemblyState = AssemblyState.hammering)
    ∧ (k = 3 → ((handleHammerClick targetY)^[k]
        ⟨AssemblyState.hammering, 0, y0⟩).boardY = targetY
        ∧ ((handleHammerClick targetY)^[k]
            ⟨AssemblyState.hammering, 0, y0⟩).assemblyState = AssemblyState.done)
    ∧ (-(handleHammer^[k] ⟨LegsState.hammering, 0, y1⟩).legsY
        = STOOL_HAMMER_END_Y + (STOOL_HAMMER_START_Y - STOOL_HAMMER_END_Y)
            * (1 - (k : ℚ) / (HAMMER_TAPS_REQUIRED : ℚ)))
    ∧ (k = 3 → -(handleHammer^[k] ⟨LegsState.hammering, 0, y1⟩).legsY
        = STOOL_HAMMER_END_Y
        ∧ (handleHammer^[k] ⟨LegsState.hammering, 0, y1⟩).legsState
          = LegsState.done) := by
  interval_cases k
  · refine ⟨?_, ?_, ?_, ?_, ?_, ?_⟩ <;>
      simp [Function.iterate_one, handleHammerClick, handleHammer,
        HAMMER_TAPS_REQUIRED, GAP_HEIGHT, STOOL_HAMMER_START_Y,
        STOOL_HAMMER_END_Y] <;> norm_num
  · refine ⟨?_, ?_, ?_, ?_, ?_, ?_⟩ <;>
      simp [show (2 : ℕ) = 1 + 1 from rfl, Function.iterate_add_apply,
        Function.iterate_one, handleHammerClick, handleHammer,
        HAMMER_TAPS_REQUIRED, GAP_HEIGHT, STOOL_HAMMER_START_Y,
        STOOL_HAMMER_END_Y] <;> norm_num
  · refine ⟨?_, ?_, ?_, ?_, ?_, ?_⟩ <;>
      simp only [show (3 : ℕ) = 1 + 1 + 1 from rfl, Function.iterate_add_apply,
        Function.iterate_one, handleHammerClick, handleHammer,
        HAMMER_TAPS_REQUIRED, GAP_HEIGHT, STOOL_HAMMER_START_Y,
        STOOL_HAMMER_END_Y] <;> norm_num

/-- Witness for C4 at `targetY = 0`, third tap: the board rests exactly at the
target height and the sub-state is `done`. -/
theorem hammer_taps_close_gap_witness :
    ((handleHammerClick 0)^[3] ⟨AssemblyState.hammering, 0, 5/2⟩).boardY = 0
    ∧ ((handleHammerClick 0)^[3]
        ⟨AssemblyState.hammering, 0, 5/2⟩).assemblyState = AssemblyState.done
    ∧ -(handleHammer^[3] ⟨LegsState.hammering, 0, -(1/2)⟩).legsY
        = STOOL_HAMMER_END_Y := by
  have h := hammer_taps_close_gap 0 (5/2) (-(1/2)) 3 (by norm_num) (by norm_num)
  exact ⟨(h.2.2.2.1 rfl).1, (h.2.2.2.1 rfl).2, (h.2.2.2.2.2 rfl).1⟩

theorem spawnTick_length (pos : ℚ × ℚ × ℚ) (draws : ℕ → SpawnDraws) :
    ∀ (ps : List Particle) (s : ℕ), (spawnTick pos draws ps s).length = ps.length := by
  intro ps
  induction ps with
  | nil => intro s; rfl
  | cons p rest ih =>
      intro s
      by_cases hs : SPAWN_BATCH ≤ s
      · simp [spawnTick, hs]
      · by_cases hp : p.active = true
        · simp [spawnTick, hs, hp, ih]
        · simp [spawnTick, hs, hp, ih]

theorem spawnBurst_length (pos : ℚ × ℚ × ℚ) (draws : ℕ → ℕ → SpawnDraws)
    (ps : List Particle) : (spawnBurst pos draws ps).length = ps.length := by
  rw [spawnBurst]
  generalize List.range BURST_DURATION = ts
  induction ts generalizing ps with
  | nil => rfl
  | cons t ts ih => simp [List.foldl_cons, ih, spawnTick_length]

theorem clearPool_length (ps : List Particle) :
    (clearPool ps).length = ps.length := by
  simp [clearPool]

theorem clearPool_inactive (ps : List Particle) :
    ∀ p ∈ clearPool ps, p.active = false := by
  intro p hp
  rw [clearPool] at hp
  obtain ⟨q, -, rfl⟩ := List.mem_map.mp hp
  rfl

theorem initPool_inactive : ∀ p ∈ initPool, p.active = false := by
  intro p hp
  rw [initPool] at hp
  rw [List.eq_of_mem_replicate hp]
  rfl

theorem advancePool_length (piHalf delta : ℚ) (snaps : ℕ → ℚ)
    (ps : List Particle) : (advancePool piHalf delta snaps ps).length = ps.length := by
  simp [advancePool]

theorem poolReachable_length {ps : List Particle} (h : PoolReachable ps) :
    ps.length = PARTICLE_COUNT := by
  induction h with
  | init => simp [initPool]
  | spawn pos draws _ ih => rw [spawnTick_length]; exact ih
  | burst pos draws _ ih => rw [spawnBurst_length]; exact ih
  | frame piHalf delta snaps _ ih => rw [advancePool_length]; exact ih
  | clear _ ih => rw [clearPool_length]; exact ih

theorem spawnTick_saturated (pos : ℚ × ℚ × ℚ) (draws : ℕ → SpawnDraws) :
    ∀ (ps : List Particle) (s : ℕ), (∀ p ∈ ps, p.active = true) →
      spawnTick pos draws ps s = ps := by
  intro ps
  induction ps with
  | nil => intro s _; rfl
  | cons p rest ih =>
      intro s hall
      by_cases hs : SPAWN_BATCH ≤ s
      · simp [spawnTick, hs]
      · have hp : p.active = true := hall p (by simp)
        simp [spawnTick, hs, hp, ih s (fun q hq => hall q (by simp [hq]))]

/-- C5: in every reachable pool state the number of active particles never
exceeds the fixed capacity 1200 and the pool itself never grows or shrinks;
a spawn tick arriving when every slot is already active silently leaves the
pool unchanged (the excess spawns are skipped, no growth, no error); and
`clear()` immediately deactivates all particles without changing capacity. -/
theorem sawdust_pool_invariants :
    (∀ ps : List Particle, PoolReachable ps →
        ps.length = PARTICLE_COUNT ∧ activeCount ps ≤ PARTICLE_COUNT)
  ∧ (∀ (pos : ℚ × ℚ × ℚ) (draws : ℕ → SpawnDraws) (s : ℕ) (ps : List Particle),
        (∀ p ∈ ps, p.active = true) → spawnTick pos draws ps s = ps)
  ∧ (∀ ps : List Particle, (clearPool ps).length = ps.length
        ∧ ∀ p ∈ clearPool ps, p.active = false) := by
  refine ⟨?_, ?_, ?_⟩
  · intro ps h
    have hlen := poolReachable_length h
    refine ⟨hlen, ?_⟩
    calc activeCount ps ≤ ps.length := List.length_filter_le _ _
    _ = PARTICLE_COUNT := hlen
  · intro pos draws s ps hall
    exact spawnTick_saturated pos draws ps s hall
  · intro ps
    exact ⟨clearPool_length ps, clearPool_inactive ps⟩

/-- Witness for C5: the freshly allocated pool is reachable and within
capacity, a fully active one-slot pool absorbs a spawn tick unchanged, and
`clear` on that pool deactivates it. -/
theorem sawdust_pool_invariants_witness :
    (initPool.length = PARTICLE_COUNT ∧ activeCount initPool ≤ PARTICLE_COUNT)
    ∧ spawnTick (0, 0, 0) (fun _ => ⟨0, 0, 0, 0, 0, 0, 0, 0, 0, 0, 0, 0, 0, 0⟩)
        [{ initParticle with active := true }] 0 = [{ initParticle with active := true }]
    ∧ ∀ p ∈ clearPool [{ initParticle with active := true }], p.active = false := by
  refine ⟨sawdust_pool_invariants.1 initPool PoolReachable.init, ?_, ?_⟩
  · exact sawdust_pool_invariants.2.1 (0, 0, 0) _ 0 _ (by simp)
  · exact (sawdust_pool_invariants.2.2 [{ initParticle with active := true }]).2

theorem phaseTrace_box_success (m : ℕ) :
    phaseTrace 1 (11 + m) = (GamePhase.SUCCESS, none) := by
  induction m with
  | zero => decide
  | succ m ih =>
      have : 11 + (m + 1) = (11 + m) + 1 := by omega
      rw [this, phaseTrace, Function.iterate_succ_apply', ← phaseTrace, ih]
      decide

theorem phaseTrace_stool_success (m : ℕ) :
    phaseTrace 2 (4 + m) = (GamePhase.SUCCESS, none) := by
  induction m with
  | zero => decide
  | succ m ih =>
      have : 4 + (m + 1) = (4 + m) + 1 := by omega
      rw [this, phaseTrace, Function.iterate_succ_apply', ← phaseTrace, ih]
      decide

/-- C6: from `INTRO`, successive completion steps drive the Box project
through exactly
INTRO, TIMBER, CLAMPING, MARKING, CUTTING, ASSEMBLY_PREP, ASSEMBLY,
CUTTING_BACK, ASSEMBLY_C, CUTTING_TOP, ASSEMBLY_D, SUCCESS and the Stool
project through exactly INTRO, CLAMPING, CUTTING, ASSEMBLY, SUCCESS; each
step is strictly forward in the project's order; `nextPhase` in `SUCCESS`
leaves the phase unchanged (SUCCESS is terminal: the whole trajectory stays
there forever), and only the explicit collect action returns to `INTRO`,
together with the project switch. -/
theorem phase_machine_forward_only :
    ((List.range 12).map (fun k => (phaseTrace 1 k).1)
      = [GamePhase.INTRO, GamePhase.TIMBER, GamePhase.CLAMPING, GamePhase.MARKING,
         GamePhase.CUTTING, GamePhase.ASSEMBLY_PREP, GamePhase.ASSEMBLY,
         GamePhase.CUTTING_BACK, GamePhase.ASSEMBLY_C, GamePhase.CUTTING_TOP,
         GamePhase.ASSEMBLY_D, GamePhase.SUCCESS])
  ∧ ((List.range 5).map (fun k => (phaseTrace 2 k).1)
      = [GamePhase.INTRO, GamePhase.CLAMPING, GamePhase.CUTTING,
         GamePhase.ASSEMBLY, GamePhase.SUCCESS])
  ∧ (∀ k, k < 11 →
      boxPhaseIndex (phaseTrace 1 (k + 1)).1 = boxPhaseIndex (phaseTrace 1 k).1 + 1)
  ∧ (∀ k, k < 4 →
      stoolPhaseIndex (phaseTrace 2 (k + 1)).1 = stoolPhaseIndex (phaseTrace 2 k).1 + 1)
  ∧ nextPhase 1 GamePhase.SUCCESS = (GamePhase.SUCCESS, none)
  ∧ nextPhase 2 GamePhase.SUCCESS = (GamePhase.SUCCESS, none)
  ∧ (∀ k, 11 ≤ k → (phaseTrace 1 k).1 = GamePhase.SUCCESS)
  ∧ (∀ k, 4 ≤ k → (phaseTrace 2 k).1 = GamePhase.SUCCESS)
  ∧ handleCollectAndNext 1 = (2, GamePhase.INTRO)
  ∧ handleCollectAndNext 2 = (1, GamePhase.INTRO) := by
  refine ⟨by decide, by decide, by decide, by decide, by decide, by decide,
    ?_, ?_, by decide, by decide⟩
  · intro k hk
    obtain ⟨m, rfl⟩ := Nat.exists_eq_add_of_le hk
    rw [phaseTrace_box_success]
  · intro k hk
    obtain ⟨m, rfl⟩ := Nat.exists_eq_add_of_le hk
    rw [phaseTrace_stool_success]

/-- Witness for C6's hypothesis-bearing parts at concrete steps. -/
theorem phase_machine_forward_only_witness :
    boxPhaseIndex (phaseTrace 1 (0 + 1)).1 = boxPhaseIndex (phaseTrace 1 0).1 + 1
    ∧ (phaseTrace 1 20).1 = GamePhase.SUCCESS
    ∧ (phaseTrace 2 7).1 = GamePhase.SUCCESS := by
  refine ⟨phase_machine_forward_only.2.2.1 0 (by norm_num), ?_, ?_⟩
  · exact phase_machine_forward_only.2.2.2.2.2.2.1 20 (by norm_num)
  · exact phase_machine_forward_only.2.2.2.2.2.2.2.1 7 (by norm_num)

theorem mountProject_resets (t : SessionState)
    (ht : t.phase = GamePhase.INTRO) :
    (mountProject t).phase = GamePhase.INTRO
    ∧ (∀ i, (mountProject t).wastesCutBFront i = false)
    ∧ (∀ i, (mountProject t).wastesCutBBack i = false)
    ∧ (∀ i, (mountProject t).wastesCutD i = false)
    ∧ (∀ i, (mountProject t).holesDrilled i = false)
    ∧ (∀ p ∈ (mountProject t).sawdust, p.active = false) := by
  by_cases hl : t.level = 1
  · refine ⟨?_, ?_, ?_, ?_, ?_, ?_⟩
    · simp [mountProject, hl, boxIntroEffect, ht]
    · intro i; simp [mountProject, hl, boxIntroEffect, ht]
    · intro i; simp [mountProject, hl, boxIntroEffect, ht]
    · intro i; simp [mountProject, hl, boxIntroEffect, ht]
    · intro i; simp [mountProject, hl, boxIntroEffect, ht]
    · intro p hp
      have hsd : (mountProject t).sawdust = clearPool initPool := by
        simp [mountProject, hl, boxIntroEffect, ht]
      rw [hsd] at hp
      exact clearPool_inactive initPool p hp
  · refine ⟨?_, ?_, ?_, ?_, ?_, ?_⟩
    · simp [mountProject, hl, ht]
    · intro i; simp [mountProject, hl]
    · intro i; simp [mountProject, hl]
    · intro i; simp [mountProject, hl]
    · intro i; simp [mountProject, hl]
    · intro p hp
      have hsd : (mountProject t).sawdust = initPool := by
        simp [mountProject, hl]
      rw [hsd] at hp
      exact initPool_inactive p hp

/-- C7: restarting a project re-enters `INTRO` with every per-target
completion array all-false — the box project's three waste-cut arrays and the
stool's four drill-hole flags — and the particle system cleared, before any
working phase of the next cycle can begin; and independently, whenever the
box project observes the phase `INTRO`, its reset effect leaves all its
waste arrays false and the particle pool inactive. -/
theorem intro_reset_clears_targets :
    (∀ s : SessionState, s.phase = GamePhase.SUCCESS →
      (sessionCollectAndNext s).phase = GamePhase.INTRO
      ∧ (∀ i, (sessionCollectAndNext s).wastesCutBFront i = false)
      ∧ (∀ i, (sessionCollectAndNext s).wastesCutBBack i = false)
      ∧ (∀ i, (sessionCollectAndNext s).wastesCutD i = false)
      ∧ (∀ i, (sessionCollectAndNext s).holesDrilled i = false)
      ∧ (∀ p ∈ (sessionCollectAndNext s).sawdust, p.active = false))
  ∧ (∀ s : SessionState, s.phase = GamePhase.INTRO →
      (∀ i, (boxIntroEffect s).wastesCutBFront i = false)
      ∧ (∀ i, (boxIntroEffect s).wastesCutBBack i = false)
      ∧ (∀ i, (boxIntroEffect s).wastesCutD i = false)
      ∧ (∀ p ∈ (boxIntroEffect s).sawdust, p.active = false)) := by
  constructor
  · intro s hs
    have hph : (handleCollectAndNext s.level).2 = GamePhase.INTRO := by
      by_cases h1 : s.level = 1 <;> simp [handleCollectAndNext, h1]
    have h := mountProject_resets
      { s with
        level := (handleCollectAndNext s.level).1
        phase := (handleCollectAndNext s.level).2 } (by simpa using hph)
    simpa [sessionCollectAndNext] using h
  · intro s hs
    refine ⟨?_, ?_, ?_, ?_⟩
    · intro i; simp [boxIntroEffect, hs]
    · intro i; simp [boxIntroEffect, hs]
    · intro i; simp [boxIntroEffect, hs]
    · intro p hp
      have hsd : (boxIntroEffect s).sawdust = clearPool s.sawdust := by
        simp [boxIntroEffect, hs]
      rw [hsd] at hp
      exact clearPool_inactive s.sawdust p hp

/-- Witness for C7: a concrete stool-project `SUCCESS` state with all holes
drilled and an active particle; the collect action lands in `INTRO` with all
flags reset and the pool inactive. -/
theorem intro_reset_clears_targets_witness :
    (sessionCollectAndNext
        { level := 2, phase := GamePhase.SUCCESS,
          wastesCutBFront := fun _ => true, wastesCutBBack := fun _ => true,
          wastesCutD := fun _ => true, holesDrilled := fun _ => true,
          sawdust := [{ initParticle with active := true }] }).phase = GamePhase.INTRO
    ∧ ∀ i, (sessionCollectAndNext
        { level := 2, phase := GamePhase.SUCCESS,
          wastesCutBFront := fun _ => true, wastesCutBBack := fun _ => true,
          wastesCutD := fun _ => true, holesDrilled := fun _ => true,
          sawdust := [{ initParticle with active := true }] }).holesDrilled i = false := by
  have h := intro_reset_clears_targets.1
    { level := 2, phase := GamePhase.SUCCESS,
      wastesCutBFront := fun _ => true, wastesCutBBack := fun _ => true,
      wastesCutD := fun _ => true, holesDrilled := fun _ => true,
      sawdust := [{ initParticle with active := true }] } rfl
  exact ⟨h.1, h.2.2.2.2.1⟩

/-- C9: whenever the chainsaw tip intersects some sapling's protected zone
(horizontal distance below 0.8 with tip height below 1.5), that `handleCut`
call leaves every tree's progress, every cut flag and the raw-wood count
unchanged — even if the tip simultaneously lies inside a big tree's valid
cutting radius and height; the sapling warning is shown instead. -/
theorem sapling_zone_suppresses_progress (sawX sawY sawZ : ℚ)
    (st : TimberState) (h : hittingSapling sawX sawY sawZ = true) :
    (timberHandleCut sawX sawY sawZ st).cutProgress = st.cutProgress
    ∧ (timberHandleCut sawX sawY sawZ st).treesCut = st.treesCut
    ∧ (timberHandleCut sawX sawY sawZ st).rawWood = st.rawWood
    ∧ (timberHandleCut sawX sawY sawZ st).saplingWarningShown = true := by
  have hupd : ∀ i, timberTreeUpdate sawX sawY sawZ st i
      = (st.cutProgress i, st.treesCut i) := by
    intro i
    rw [timberTreeUpdate, h]
    simp
  refine ⟨?_, ?_, ?_, ?_⟩
  · funext i
    show (timberTreeUpdate sawX sawY sawZ st i).1 = st.cutProgress i
    rw [hupd]
  · funext i
    show (timberTreeUpdate sawX sawY sawZ st i).2 = st.treesCut i
    rw [hupd]
  · show st.rawWood + _ = st.rawWood
    have hfil : ((List.finRange 2).filter (fun i =>
        !st.treesCut i && (timberTreeUpdate sawX sawY sawZ st i).2)) = [] := by
      rw [List.filter_eq_nil_iff]
      intro i _
      rw [hupd]
      simp
    rw [hfil]
    rfl
  · rw [timberHandleCut, h]

/-- Witness for C9: the saw tip at `(2.1, 1, 0.3)` is inside the protected
zone of the sapling at `(1.5, 0.5)` *and* inside tree 1's valid cutting
radius `(3, 0)` at valid height, yet a `handleCut` with zero progress state
changes nothing. -/
theorem sapling_zone_suppresses_progress_witness :
    hittingSapling (21/10) 1 (3/10) = true
    ∧ (((21/10 : ℚ) - (treePos ⟨1, by norm_num⟩).1)^2
        + ((3/10 : ℚ) - (treePos ⟨1, by norm_num⟩).2)^2 < TREE_RADIUS^2
        ∧ (0 : ℚ) < 1 ∧ (1 : ℚ) < 3)
    ∧ (timberHandleCut (21/10) 1 (3/10)
        { treesCut := fun _ => false, cutProgress := fun _ => 0,
          rawWood := 0, saplingWarningShown := false }).cutProgress
      = (fun _ => (0 : ℚ))
    ∧ (timberHandleCut (21/10) 1 (3/10)
        { treesCut := fun _ => false, cutProgress := fun _ => 0,
          rawWood := 0, saplingWarningShown := false }).rawWood = 0 := by
  have hhit : hittingSapling (21/10) 1 (3/10) = true := by
    rw [hittingSapling]
    refine List.any_eq_true.mpr ⟨(15/10, 5/10), ?_, ?_⟩
    · norm_num [SAPLINGS]
    · rw [decide_eq_true_eq]
      norm_num [SAPLING_RADIUS, SAPLING_MAX_Y]
  have h := sapling_zone_suppresses_progress (21/10) 1 (3/10)
    { treesCut := fun _ => false, cutProgress := fun _ => 0,
      rawWood := 0, saplingWarningShown := false } hhit
  refine ⟨hhit, ?_, h.1, h.2.2.1⟩
  norm_num [treePos, TREES, TREE_RADIUS]

end WoodSim
